import Mathlib

/-!
Verification of the Holt sales-forecasting engine (src/app.py).

The numeric type of the embedding is ℚ: the Python code computes with floats,
and the spec states its algebraic laws "up to floating-point rounding"; the
embedding settles the exact-arithmetic content of each claim.

The undefined-result sentinel (`np.nan`, src/app.py line 10) is modelled as
`none` of an `Option`; `periods` is an integer, and the Phase B loop runs
`periods.toNat` times, matching Python `for _ in range(periods)`, which runs
`max(periods, 0)` times.
-/

namespace HoltSales

/-- One Holt recursion step (src/app.py lines 17-19, identical at lines 24-26):
given the current `(level, trend)` state and an observation `x`, produce the
updated state.  `level_prev` is the level before the update. -/
def holtStep (alpha beta : ℚ) (st : ℚ × ℚ) (x : ℚ) : ℚ × ℚ :=
  let level_prev := st.1
  let level := alpha * x + (1 - alpha) * (st.1 + st.2)
  let trend := beta * (level - level_prev) + (1 - beta) * st.2
  (level, trend)

/-- Phase B loop of `holt_forecast` (src/app.py lines 21-26): `n` times, emit
`forecast = level + trend` as the next element of the result and feed the
forecast back through the same state update as if it were an observation. -/
def phaseB (alpha beta : ℚ) : ℕ → ℚ × ℚ → List ℚ
  | 0, _ => []
  | n + 1, st =>
    let forecast := st.1 + st.2
    forecast :: phaseB alpha beta n (holtStep alpha beta st forecast)

/-- The forecasting engine `holt_forecast` (src/app.py lines 8-28).
If `len(data) < 2` the Python code returns `np.nan` (modelled as `none`).
Otherwise it initializes `level = data[0]`, `trend = data[1] - data[0]`,
folds the Holt step over `data[1] .. data[len-1]` in order (Python loop
`for i in range(1, len(data))`), and then runs the Phase B loop. -/
def holt_forecast (data : List ℚ) (alpha beta : ℚ) (periods : ℤ) : Option (List ℚ) :=
  match data with
  | d0 :: d1 :: rest =>
      some (phaseB alpha beta periods.toNat
        ((d1 :: rest).foldl (holtStep alpha beta) (d0, d1 - d0)))
  | _ => none

/-- The terminal `(level, trend)` state after Phase A of `holt_forecast`
(src/app.py lines 12-19), `none` when `len(data) < 2`. -/
def phaseA (alpha beta : ℚ) (data : List ℚ) : Option (ℚ × ℚ) :=
  match data with
  | d0 :: d1 :: rest =>
      some ((d1 :: rest).foldl (holtStep alpha beta) (d0, d1 - d0))
  | _ => none

/-- Spec §4.2 Phase A, written the way the spec words it: initialize
`level = data[0]`, `trend = data[1] - data[0]`, then for each index
`i = 1 .. len(data)-1` in order apply the Holt recursion to `data[i]`. -/
def specPhaseA (alpha beta : ℚ) (data : List ℚ) : ℚ × ℚ :=
  (List.range' 1 (data.length - 1)).foldl
    (fun st i => holtStep alpha beta st (data.getD i 0))
    (data.getD 0 0, data.getD 1 0 - data.getD 0 0)

/-- Spec §4.2 Phase B, written the way the spec words it: repeat exactly
`periods` times, emitting `forecast = level + trend` as the next element of
the result sequence (appended at the end, in order) and feeding it back
through the same recursion as if it were an observation. -/
def specPhaseBAux (alpha beta : ℚ) : ℕ → ℚ × ℚ → List ℚ → List ℚ
  | 0, _, acc => acc
  | n + 1, st, acc =>
    let forecast := st.1 + st.2
    specPhaseBAux alpha beta n (holtStep alpha beta st forecast) (acc ++ [forecast])

/-- The spec's two-phase algorithm (§4.2) as a whole: sentinel for
`len(data) < 2`, else Phase A followed by Phase B with an empty initial
result sequence. -/
def specHolt (data : List ℚ) (alpha beta : ℚ) (periods : ℕ) : Option (List ℚ) :=
  if data.length < 2 then none
  else some (specPhaseBAux alpha beta periods (specPhaseA alpha beta data) [])

/-- State-passing embedding of `holt_forecast` for the frame property: the
mutable store holds the input list object and is threaded through the call,
returned alongside the result.  The body of `holt_forecast` (src/app.py
lines 8-28) only reads `data` — `len(data)` at line 9, `data[0]` and
`data[1]` at lines 12-13, `data[i]` at line 18 — and appends to the freshly
created list `forecasts`; no statement assigns into `data`, so the store the
call returns is the store it received. -/
def holt_forecast_run (data : List ℚ) (alpha beta : ℚ) (periods : ℤ) :
    Option (List ℚ) × List ℚ :=
  if data.length < 2 then (none, data)
  else
    (some (phaseB alpha beta periods.toNat
      ((List.range' 1 (data.length - 1)).foldl
        (fun st i => holtStep alpha beta st (data.getD i 0))
        (data.getD 0 0, data.getD 1 0 - data.getD 0 0))), data)

/-- Outcome of the file-based ingestion path (src/app.py lines 101-113):
either a series, or the reported missing-columns error (line 111), or the
reported insufficient-data condition (line 109).  The `read_excel` parse
itself (lines 103, 112-113) is outside the model: the table is given
already parsed. -/
inductive IngestResult where
  | series (vals : List ℚ)
  | missingColumns
  | insufficientData
deriving DecidableEq

/-- An uploaded table, already parsed: a list of column names and a list of
records, each record an association of column name to cell value.  The cells
of the month-label column are never read by the ingestion path, so all cells
are modelled at the value type. -/
structure DataFrame where
  columns : List String
  records : List (List (String × ℚ))
deriving DecidableEq

/-- Cell lookup in one record by column name (pandas column access,
`df_history['value']` applied record-wise). -/
def cell (r : List (String × ℚ)) (c : String) : ℚ :=
  ((r.find? (fun p => p.1 == c)).map Prod.snd).getD 0

/-- The file-based ingestion path (src/app.py lines 101-113): if both named
fields `mois` and `value` are among the columns (`issubset`, line 104) and
there are at least 12 records (line 105), the series is the first 12
records' `value` cells in file order (`head(12)`, line 106, no re-sorting);
with fewer than 12 records the insufficient-data condition is reported
(line 109); with a missing field the error is reported (line 111). -/
def ingestUpload (df : DataFrame) : IngestResult :=
  if "mois" ∈ df.columns ∧ "value" ∈ df.columns then
    if 12 ≤ df.records.length then
      IngestResult.series ((df.records.take 12).map (fun r => cell r "value"))
    else IngestResult.insufficientData
  else IngestResult.missingColumns

/-- Value of a list of decimal digit characters, most significant first. -/
def digitsToNat (cs : List Char) : ℕ :=
  cs.foldl (fun a c => a * 10 + (c.toNat - 48)) 0

/-- Modelled from the spec: the "numeric parsing" step of manual-entry
normalization (§4.1) is not in src/app.py (the revision under src/ uses a
numeric input widget, lines 116-128, whose text parsing is inside the
widget); the spec describes parsing the raw text as a decimal number.
Accepts an optional sign, an integer part and an optional fractional part
after a period, with at least one digit; anything else fails. -/
def parseDecimal (cs : List Char) : Option ℚ :=
  let stripped := match cs with
    | '-' :: rest => (true, rest)
    | '+' :: rest => (false, rest)
    | _ => (false, cs)
  let neg := stripped.1
  let body := stripped.2
  let ip := body.takeWhile (fun c => c != '.')
  let fpart := body.dropWhile (fun c => c != '.')
  match fpart with
  | [] =>
      if ip.all Char.isDigit && !ip.isEmpty then
        some (if neg then -(digitsToNat ip : ℚ) else (digitsToNat ip : ℚ))
      else none
  | _ :: frac =>
      if ip.all Char.isDigit && frac.all Char.isDigit
          && !(ip.isEmpty && frac.isEmpty) then
        let mag : ℚ := (digitsToNat ip : ℚ) + (digitsToNat frac : ℚ) / ((10 : ℚ) ^ frac.length)
        some (if neg then -mag else mag)
      else none

/-- Modelled from the spec: manual-entry normalization of one raw text slot
value (§4.1) — not in src/app.py (see `parseDecimal`).  Each comma is
treated as the decimal separator (substituted with a period) before numeric
parsing; a parse failure or a negative result is silently clamped to 0. -/
def normalizeManualValue (s : String) : ℚ :=
  match parseDecimal (s.toList.map (fun c => if c = ',' then '.' else c)) with
  | some q => if q < 0 then 0 else q
  | none => 0

section Lemmas

/-- Feeding `level + trend` back through the Holt step moves the level to
`level + trend` and leaves the trend unchanged (spec §4.2, Phase B
"Consequence" bullet). -/
lemma holtStep_feedback (alpha beta l t : ℚ) :
    holtStep alpha beta (l, t) (l + t) = (l + t, t) := by
  simp only [holtStep, Prod.mk.injEq]
  constructor <;> ring

lemma phaseB_length (alpha beta : ℚ) : ∀ (n : ℕ) (st : ℚ × ℚ),
    (phaseB alpha beta n st).length = n := by
  intro n
  induction n with
  | zero => intro st; rfl
  | succ n ih => intro st; simp [phaseB, ih]

/-- Closed form of the Phase B loop: starting from state `(l, t)`, the
emitted forecasts are `l + (k+1)*t` for `k = 0 .. n-1`. -/
lemma phaseB_closed (alpha beta : ℚ) : ∀ (n : ℕ) (l t : ℚ),
    phaseB alpha beta n (l, t)
      = (List.range n).map (fun k : ℕ => l + ((k : ℚ) + 1) * t) := by
  intro n
  induction n with
  | zero => intro l t; simp [phaseB]
  | succ n ih =>
    intro l t
    have hstep : phaseB alpha beta (n + 1) (l, t)
        = (l + t) :: phaseB alpha beta n (holtStep alpha beta (l, t) (l + t)) := rfl
    rw [hstep, holtStep_feedback, ih, List.range_succ_eq_map, List.map_cons, List.map_map]
    congr 1
    · push_cast; ring
    · apply List.map_congr_left
      intro a _
      simp only [Function.comp_apply]
      push_cast
      ring

/-- On a constant observation with zero trend, the Holt step is the
identity for every `alpha` and `beta`. -/
lemma holtStep_const (alpha beta c : ℚ) :
    holtStep alpha beta (c, 0) c = (c, 0) := by
  simp only [holtStep, Prod.mk.injEq]
  constructor <;> ring

lemma foldl_replicate_const (alpha beta c : ℚ) : ∀ n : ℕ,
    (List.replicate n c).foldl (holtStep alpha beta) (c, 0) = (c, 0) := by
  intro n
  induction n with
  | zero => rfl
  | succ n ih =>
    rw [List.replicate_succ, List.foldl_cons, holtStep_const]
    exact ih

/-- Folding a binary step over indices `pre.length .. pre.length + l.length - 1`
of the concatenation `pre ++ l` is folding it over the elements of `l`. -/
lemma foldl_getD_range' {σ : Type} (f : σ → ℚ → σ) :
    ∀ (l pre : List ℚ) (s : σ),
    (List.range' pre.length l.length).foldl
        (fun st i => f st ((pre ++ l).getD i 0)) s
      = l.foldl f s := by
  intro l
  induction l with
  | nil => intro pre s; simp
  | cons x xs ih =>
    intro pre s
    rw [List.length_cons, List.range'_succ, List.foldl_cons]
    have hx : (pre ++ x :: xs).getD pre.length 0 = x := by
      rw [List.getD_append_right pre (x :: xs) 0 pre.length le_rfl]
      simp
    rw [hx]
    have hcast : pre ++ x :: xs = (pre ++ [x]) ++ xs := List.append_cons pre x xs
    have hlen : pre.length + 1 = (pre ++ [x]).length := by simp
    rw [List.foldl_cons] at *
    calc (List.range' (pre.length + 1) xs.length).foldl
            (fun st i => f st ((pre ++ x :: xs).getD i 0)) (f s x)
        = (List.range' ((pre ++ [x]).length) xs.length).foldl
            (fun st i => f st (((pre ++ [x]) ++ xs).getD i 0)) (f s x) := by
          rw [← hcast, ← hlen]
      _ = xs.foldl f (f s x) := ih (pre ++ [x]) (f s x)

/-- The spec's Phase A index loop agrees with the code's fold over the tail. -/
lemma specPhaseA_eq (alpha beta d0 d1 : ℚ) (rest : List ℚ) :
    specPhaseA alpha beta (d0 :: d1 :: rest)
      = (d1 :: rest).foldl (holtStep alpha beta) (d0, d1 - d0) := by
  have h := foldl_getD_range' (holtStep alpha beta) (d1 :: rest) [d0] (d0, d1 - d0)
  simp only [List.singleton_append] at h
  unfold specPhaseA
  simpa using h

/-- The spec's Phase B accumulator loop emits the same list as the code's
Phase B loop, appended after the accumulated output so far. -/
lemma specPhaseBAux_eq (alpha beta : ℚ) : ∀ (n : ℕ) (st : ℚ × ℚ) (acc : List ℚ),
    specPhaseBAux alpha beta n st acc = acc ++ phaseB alpha beta n st := by
  intro n
  induction n with
  | zero => intro st acc; simp [specPhaseBAux, phaseB]
  | succ n ih =>
    intro st acc
    rw [show specPhaseBAux alpha beta (n + 1) st acc
          = specPhaseBAux alpha beta n (holtStep alpha beta st (st.1 + st.2))
              (acc ++ [st.1 + st.2]) from rfl,
        ih, List.append_assoc]
    rfl

end Lemmas

/-- C1: for every series with at least two points, every `alpha` and `beta`,
and every integer `periods ≥ 0`, `holt_forecast` computes exactly the
spec's two-phase recursion: Phase A initializes `level = data[0]`,
`trend = data[1] - data[0]` and folds the Holt update over
`data[1] .. data[len-1]` in order; Phase B emits `level + trend` exactly
`periods` times, feeding each forecast back through the same update. -/
theorem claim_C1_two_phase_recursion (data : List ℚ) (alpha beta : ℚ) (p : ℕ)
    (h : 2 ≤ data.length) :
    holt_forecast data alpha beta (p : ℤ) = specHolt data alpha beta p := by
  rcases data with _ | ⟨d0, _ | ⟨d1, rest⟩⟩
  · simp at h
  · simp at h
  · show some (phaseB alpha beta ((p : ℤ)).toNat
        ((d1 :: rest).foldl (holtStep alpha beta) (d0, d1 - d0))) = _
    unfold specHolt
    rw [if_neg (by simp), specPhaseA_eq, specPhaseBAux_eq, List.nil_append,
      Int.toNat_natCast]

/-- Witness for C1 at `data = [1, 2]`, `alpha = beta = 0`, `periods = 1`. -/
theorem claim_C1_witness :
    2 ≤ ([1, 2] : List ℚ).length
      ∧ holt_forecast [1, 2] 0 0 ((1 : ℕ) : ℤ) = specHolt [1, 2] 0 0 1 :=
  ⟨by simp, claim_C1_two_phase_recursion [1, 2] 0 0 1 (by simp)⟩

/-- C2: once Phase A yields the terminal state `(lvl, trd)`, the emitted
forecasts are the closed-form linear projection `lvl + (k+1) * trd` for
`k = 0 .. periods-1`: the feedback recursion of Phase B is extensionally
equal to projection from the fixed terminal state. -/
theorem claim_C2_closed_form_projection (data : List ℚ) (alpha beta : ℚ)
    (p : ℕ) (lvl trd : ℚ) (hA : phaseA alpha beta data = some (lvl, trd)) :
    holt_forecast data alpha beta (p : ℤ)
        = some ((List.range p).map (fun k : ℕ => lvl + ((k : ℚ) + 1) * trd))
      ∧ ∀ out, holt_forecast data alpha beta (p : ℤ) = some out →
          ∀ k : ℕ, k < p → out.getD k 0 = lvl + ((k : ℚ) + 1) * trd := by
  rcases data with _ | ⟨d0, _ | ⟨d1, rest⟩⟩
  · exact absurd hA (by simp [phaseA])
  · exact absurd hA (by simp [phaseA])
  · have hfold : (d1 :: rest).foldl (holtStep alpha beta) (d0, d1 - d0) = (lvl, trd) := by
      have : some ((d1 :: rest).foldl (holtStep alpha beta) (d0, d1 - d0))
          = some (lvl, trd) := hA
      exact Option.some.inj this
    have hmain : holt_forecast (d0 :: d1 :: rest) alpha beta (p : ℤ)
        = some ((List.range p).map (fun k : ℕ => lvl + ((k : ℚ) + 1) * trd)) := by
      show some (phaseB alpha beta ((p : ℤ)).toNat
          ((d1 :: rest).foldl (holtStep alpha beta) (d0, d1 - d0))) = _
      rw [hfold, Int.toNat_natCast, phaseB_closed]
    refine ⟨hmain, ?_⟩
    intro out hout k hk
    rw [hmain] at hout
    have hout' := Option.some.inj hout
    subst hout'
    rw [List.getD_eq_getElem?_getD, List.getElem?_map, List.getElem?_range hk]
    rfl

/-- Witness for C2 at `data = [0, 1]`, `alpha = beta = 0`, `periods = 2`:
Phase A ends at `(1, 1)` and the forecasts are `[2, 3]`. -/
theorem claim_C2_witness :
    phaseA 0 0 [0, 1] = some (1, 1)
      ∧ holt_forecast [0, 1] 0 0 ((2 : ℕ) : ℤ) = some [2, 3] := by
  have hA : phaseA 0 0 [0, 1] = some (1, 1) := by
    norm_num [phaseA, holtStep]
  refine ⟨hA, ?_⟩
  have h := (claim_C2_closed_form_projection [0, 1] 0 0 2 1 1 hA).1
  rw [h]
  norm_num [List.range_succ]

/-- C3: for every series with fewer than two points, and any `alpha`, `beta`
and `periods`, `holt_forecast` returns the undefined-result sentinel
immediately; this is the engine's only signaled error condition. -/
theorem claim_C3_short_input_sentinel (data : List ℚ) (alpha beta : ℚ)
    (p : ℤ) (h : data.length < 2) :
    holt_forecast data alpha beta p = none := by
  rcases data with _ | ⟨d0, _ | ⟨d1, rest⟩⟩
  · rfl
  · rfl
  · simp at h
    omega

/-- Witness for C3 at the empty series. -/
theorem claim_C3_witness :
    ([] : List ℚ).length < 2 ∧ holt_forecast [] 0 0 5 = none :=
  ⟨by simp, claim_C3_short_input_sentinel [] 0 0 5 (by simp)⟩

/-- C4: for every series with at least two points and every integer
`periods ≥ 0`, the result is a sequence of length exactly `periods`; in
particular `periods = 0` yields the empty sequence. -/
theorem claim_C4_result_length (data : List ℚ) (alpha beta : ℚ) (p : ℤ)
    (h2 : 2 ≤ data.length) (hp : 0 ≤ p) :
    ∃ out, holt_forecast data alpha beta p = some out
      ∧ (out.length : ℤ) = p ∧ (p = 0 → out = []) := by
  rcases data with _ | ⟨d0, _ | ⟨d1, rest⟩⟩
  · simp at h2
  · simp at h2
  · refine ⟨_, rfl, ?_, ?_⟩
    · rw [phaseB_length]
      exact Int.toNat_of_nonneg hp
    · intro h0
      subst h0
      rfl

/-- Witness for C4 at `data = [0, 0]`, `periods = 0`. -/
theorem claim_C4_witness :
    2 ≤ ([0, 0] : List ℚ).length ∧ (0 : ℤ) ≤ 0
      ∧ ∃ out, holt_forecast [0, 0] 0 0 0 = some out
          ∧ (out.length : ℤ) = 0 ∧ ((0 : ℤ) = 0 → out = []) :=
  ⟨by simp, le_refl 0, claim_C4_result_length [0, 0] 0 0 0 (by simp) (le_refl 0)⟩

/-- C5: for a constant series of 12 equal values `c` with the default
parameters `alpha = 0.2`, `beta = 0.1` and `periods = 3`, Phase A ends with
terminal level exactly `c` and terminal trend exactly `0`, and the result
is exactly `[c, c, c]` (the spec's example takes `c = 10`). -/
theorem claim_C5_constant_series (c : ℚ) :
    phaseA (2/10) (1/10) (List.replicate 12 c) = some (c, 0)
      ∧ holt_forecast (List.replicate 12 c) (2/10) (1/10) 3 = some [c, c, c] := by
  have hrep : List.replicate 12 c = c :: c :: List.replicate 10 c := rfl
  have hfold : (c :: List.replicate 10 c).foldl (holtStep (2/10) (1/10)) (c, c - c)
      = (c, 0) := by
    rw [sub_self, show (c :: List.replicate 10 c) = List.replicate 11 c from rfl]
    exact foldl_replicate_const (2/10) (1/10) c 11
  constructor
  · rw [hrep]
    show some ((c :: List.replicate 10 c).foldl (holtStep (2/10) (1/10)) (c, c - c))
        = some (c, 0)
    rw [hfold]
  · rw [hrep]
    show some (phaseB (2/10) (1/10) ((3 : ℤ)).toNat
        ((c :: List.replicate 10 c).foldl (holtStep (2/10) (1/10)) (c, c - c)))
      = some [c, c, c]
    rw [hfold, show ((3 : ℤ)).toNat = 3 from rfl, phaseB_closed]
    simp [List.range_succ]

/-- C8: the engine is deterministic and pure: two invocations with
identical inputs return identical results (the embedding is a function of
exactly `(data, alpha, beta, periods)`, with no other state). -/
theorem claim_C8_deterministic (d₁ d₂ : List ℚ) (a₁ a₂ b₁ b₂ : ℚ)
    (p₁ p₂ : ℤ) (hd : d₁ = d₂) (ha : a₁ = a₂) (hb : b₁ = b₂) (hp : p₁ = p₂) :
    holt_forecast d₁ a₁ b₁ p₁ = holt_forecast d₂ a₂ b₂ p₂ := by
  subst hd
  subst ha
  subst hb
  subst hp
  rfl

/-- Witness for C8: two identical invocations on a concrete input. -/
theorem claim_C8_witness :
    holt_forecast [1, 2, 3] (2/10) (1/10) 4 = holt_forecast [1, 2, 3] (2/10) (1/10) 4 :=
  claim_C8_deterministic [1, 2, 3] [1, 2, 3] (2/10) (2/10) (1/10) (1/10) 4 4
    rfl rfl rfl rfl

/-- C9: for every series with at least two points and every negative
integer `periods`, `holt_forecast` neither fails nor returns the sentinel:
it returns the empty sequence, exactly as for `periods = 0` (Python
`range(periods)` is empty for negative `periods`). -/
theorem claim_C9_negative_periods (data : List ℚ) (alpha beta : ℚ) (p : ℤ)
    (hp : p < 0) (h2 : 2 ≤ data.length) :
    holt_forecast data alpha beta p = some [] := by
  rcases data with _ | ⟨d0, _ | ⟨d1, rest⟩⟩
  · simp at h2
  · simp at h2
  · show some (phaseB alpha beta p.toNat
        ((d1 :: rest).foldl (holtStep alpha beta) (d0, d1 - d0))) = some []
    rw [Int.toNat_of_nonpos (le_of_lt hp)]
    rfl

/-- Witness for C9 at `data = [0, 0]`, `periods = -1`. -/
theorem claim_C9_witness :
    (-1 : ℤ) < 0 ∧ 2 ≤ ([0, 0] : List ℚ).length
      ∧ holt_forecast [0, 0] 0 0 (-1) = some [] :=
  ⟨by norm_num, by simp,
    claim_C9_negative_periods [0, 0] 0 0 (-1) (by norm_num) (by simp)⟩

/-- C10: the engine never modifies its input: in the state-passing
embedding, where the input list is part of the threaded store, the store
after the call equals the store before it, and the computed result agrees
with `holt_forecast`. -/
theorem claim_C10_input_unmodified (data : List ℚ) (alpha beta : ℚ) (p : ℤ) :
    (holt_forecast_run data alpha beta p).2 = data
      ∧ (holt_forecast_run data alpha beta p).1 = holt_forecast data alpha beta p := by
  constructor
  · unfold holt_forecast_run
    split <;> rfl
  · rcases data with _ | ⟨d0, _ | ⟨d1, rest⟩⟩
    · rfl
    · rfl
    · unfold holt_forecast_run
      rw [if_neg (by simp)]
      show some (phaseB alpha beta p.toNat _) = some (phaseB alpha beta p.toNat _)
      have h := specPhaseA_eq alpha beta d0 d1 rest
      unfold specPhaseA at h
      rw [h]

/-- C6: the file-based ingestion path produces a series only when both
required named fields (`mois` and `value`) are present and there are at
least 12 records; a missing field is reported as the missing-columns error,
fewer than 12 records as the insufficient-data condition, and otherwise the
series is exactly the first 12 records' `value` cells in file order (no
re-sorting by the month label). -/
theorem claim_C6_file_ingestion (df : DataFrame) :
    (("mois" ∉ df.columns ∨ "value" ∉ df.columns) →
        ingestUpload df = IngestResult.missingColumns)
    ∧ ("mois" ∈ df.columns → "value" ∈ df.columns → df.records.length < 12 →
        ingestUpload df = IngestResult.insufficientData)
    ∧ ("mois" ∈ df.columns → "value" ∈ df.columns → 12 ≤ df.records.length →
        ∃ vs, ingestUpload df = IngestResult.series vs
          ∧ vs.length = 12
          ∧ ∀ i : ℕ, i < 12 →
              vs.getD i 0 = cell (df.records.getD i []) "value") := by
  refine ⟨?_, ?_, ?_⟩
  · intro h
    unfold ingestUpload
    rw [if_neg (by tauto)]
  · intro h1 h2 hlt
    unfold ingestUpload
    rw [if_pos ⟨h1, h2⟩, if_neg (by omega)]
  · intro h1 h2 hge
    refine ⟨(df.records.take 12).map (fun r => cell r "value"), ?_, ?_, ?_⟩
    · unfold ingestUpload
      rw [if_pos ⟨h1, h2⟩, if_pos hge]
    · simp [List.length_take]
      omega
    · intro i hi
      have hi' : i < df.records.length := lt_of_lt_of_le hi hge
      rw [List.getD_eq_getElem?_getD, List.getElem?_map, List.getElem?_take,
        if_pos hi, List.getElem?_eq_getElem hi',
        List.getD_eq_getElem df.records [] hi']
      rfl

/-- Witness for C6: a table with both columns and exactly 12 records. -/
theorem claim_C6_witness :
    12 ≤ (List.replicate 12 [("mois", (0 : ℚ)), ("value", 5)]).length
      ∧ ∃ vs,
        ingestUpload
            ⟨["mois", "value"], List.replicate 12 [("mois", 0), ("value", 5)]⟩
          = IngestResult.series vs
        ∧ vs.length = 12
        ∧ ∀ i : ℕ, i < 12 →
            vs.getD i 0
              = cell ((List.replicate 12 [("mois", (0 : ℚ)), ("value", 5)]).getD i [])
                  "value" :=
  ⟨by simp,
    (claim_C6_file_ingestion
        ⟨["mois", "value"], List.replicate 12 [("mois", 0), ("value", 5)]⟩).2.2
      (by simp) (by simp) (by simp)⟩

/-- C7: manual-entry normalization treats a comma as the decimal separator
before numeric parsing and silently clamps a parse failure or a negative
result to 0: the text `"1,5"` parses to `1.5`, `"-3"` clamps to `0`,
`"abc"` clamps to `0`, and for 12 slots the output is exactly 12 values in
slot order. -/
theorem claim_C7_manual_normalization :
    normalizeManualValue "1,5" = 3/2
    ∧ normalizeManualValue "-3" = 0
    ∧ normalizeManualValue "abc" = 0
    ∧ ∀ raw : List String, raw.length = 12 →
        (raw.map normalizeManualValue).length = 12
        ∧ ∀ i : ℕ, i < 12 →
            (raw.map normalizeManualValue).getD i 0
              = normalizeManualValue (raw.getD i "") := by
  refine ⟨?_, rfl, rfl, ?_⟩
  · have h1 : normalizeManualValue "1,5"
        = if ((1 : ℕ) : ℚ) + ((5 : ℕ) : ℚ) / (10 : ℚ) ^ 1 < 0 then 0
          else ((1 : ℕ) : ℚ) + ((5 : ℕ) : ℚ) / (10 : ℚ) ^ 1 := rfl
    rw [h1, if_neg (by norm_num)]
    norm_num
  · intro raw hlen
    refine ⟨by simp [hlen], ?_⟩
    intro i hi
    have hi' : i < raw.length := by omega
    rw [List.getD_eq_getElem?_getD, List.getElem?_map,
      List.getElem?_eq_getElem hi', List.getD_eq_getElem raw "" hi']
    rfl

/-- Witness for C7: twelve filled slots normalize to twelve values. -/
theorem claim_C7_witness :
    (List.replicate 12 "1,5").length = 12
      ∧ ((List.replicate 12 "1,5").map normalizeManualValue).length = 12 :=
  ⟨by simp,
    (claim_C7_manual_normalization.2.2.2 (List.replicate 12 "1,5") (by simp)).1⟩

end HoltSales
